import Mathlib

set_option linter.unusedVariables false

/-! Verification of the feature-flag SDK's versioned data store, evaluation
engine, data-kind deserialization, durable-store reconciliation protocol,
file-data JSON detection, and evaluation-series builder isolation. -/

/-- Boxed dynamic JSON-like value used for flag variations, clause comparison
values and event payloads. The source's closed sum also has array and object
constructors; the claims under verification only exercise null, boolean,
integer and string values, so the model carries that subset. -/
inductive LDValue where
  | null : LDValue
  | bool (b : Bool) : LDValue
  | num (n : Int) : LDValue
  | str (s : String) : LDValue
deriving DecidableEq, Repr

/-! ## SHA-1 (stable bucketing hash)

The rollout bucketing computes a stable hash of
"<flagKey>.<salt>.<attributeValue>"; the reference implementation uses SHA-1
and takes the first 15 hex digits of the digest as a 60-bit integer. The
functions below implement SHA-1 over byte lists with Nat arithmetic
(all words reduced mod 2^32). -/

def u32 (n : Nat) : Nat := n % 4294967296

def rotl32 (n s : Nat) : Nat := u32 ((n <<< s) ||| (n >>> (32 - s)))

def sha1K (t : Nat) : Nat :=
  if t < 20 then 1518500249
  else if t < 40 then 1859775393
  else if t < 60 then 2400959708
  else 3395469782

def sha1F (t b c d : Nat) : Nat :=
  if t < 20 then (b &&& c) ||| ((4294967295 ^^^ b) &&& d)
  else if t < 40 then b ^^^ c ^^^ d
  else if t < 60 then (b &&& c) ||| (b &&& d) ||| (c &&& d)
  else b ^^^ c ^^^ d

/-- Expand a 16-word block to the 80-word message schedule. -/
def sha1Schedule (ws16 : List Nat) : List Nat :=
  (List.range 64).foldl
    (fun a _ =>
      let n := a.length
      a ++ [rotl32 ((a.getD (n - 3) 0) ^^^ (a.getD (n - 8) 0) ^^^
                    (a.getD (n - 14) 0) ^^^ (a.getD (n - 16) 0)) 1])
    ws16

/-- One SHA-1 compression step over five chaining words. -/
def sha1ProcessBlock (hs : List Nat) (ws16 : List Nat) : List Nat :=
  let w := sha1Schedule ws16
  let h0 := hs.getD 0 0
  let h1 := hs.getD 1 0
  let h2 := hs.getD 2 0
  let h3 := hs.getD 3 0
  let h4 := hs.getD 4 0
  let fin := (List.range 80).foldl
    (fun (st : Nat × Nat × Nat × Nat × Nat) t =>
      let a := st.1
      let b := st.2.1
      let c := st.2.2.1
      let d := st.2.2.2.1
      let e := st.2.2.2.2
      (u32 (rotl32 a 5 + sha1F t b c d + e + sha1K t + w.getD t 0),
       a, rotl32 b 30, c, d))
    (h0, h1, h2, h3, h4)
  [u32 (h0 + fin.1), u32 (h1 + fin.2.1), u32 (h2 + fin.2.2.1),
   u32 (h3 + fin.2.2.2.1), u32 (h4 + fin.2.2.2.2)]

/-- Big-endian 8-byte encoding of the bit length. -/
def sha1LenBytes (n : Nat) : List Nat :=
  (List.range 8).map (fun i => (n >>> (56 - 8 * i)) % 256)

/-- Merkle-Damgard padding: append 0x80, zero bytes, then the 64-bit length. -/
def sha1Pad (bytes : List Nat) : List Nat :=
  let len := bytes.length
  let k := (64 + 56 - (len % 64) - 1) % 64
  bytes ++ [128] ++ List.replicate k 0 ++ sha1LenBytes (8 * len)

/-- Group bytes into big-endian 32-bit words. -/
def bytesToWords : List Nat → List Nat
  | b0 :: b1 :: b2 :: b3 :: rest =>
      ((b0 <<< 24) ||| (b1 <<< 16) ||| (b2 <<< 8) ||| b3) :: bytesToWords rest
  | _ => []

def chunk16Aux : Nat → List Nat → List (List Nat)
  | 0, _ => []
  | _, [] => []
  | fuel + 1, ws => ws.take 16 :: chunk16Aux fuel (ws.drop 16)

def chunk16 (ws : List Nat) : List (List Nat) := chunk16Aux ws.length ws

/-- SHA-1 digest as five 32-bit words. -/
def sha1Words (bytes : List Nat) : List Nat :=
  (chunk16 (bytesToWords (sha1Pad bytes))).foldl sha1ProcessBlock
    [1732584193, 4023233417, 2562383102, 271733878, 3285377520]

/-- Hex nibbles of a 32-bit word, most significant first. -/
def wordNibbles (w : Nat) : List Nat :=
  (List.range 8).map (fun i => (w >>> (28 - 4 * i)) % 16)

/-- The 60-bit integer given by the first 15 hex digits of the SHA-1 digest of
the input bytes; the bucket value is this integer divided by
0xFFFFFFFFFFFFFFF (compared exactly as rationals below). -/
def bucketIntVal (bytes : List Nat) : Nat :=
  ((((sha1Words bytes).map wordNibbles).flatten).take 15).foldl
    (fun a n => a * 16 + n) 0

/-- UTF-8 bytes of a string; all strings hashed by the claims are ASCII, for
which code points and bytes coincide. -/
def strBytes (s : String) : List Nat := s.toList.map Char.toNat

/-! ## Evaluation engine data model

Modelled from the spec: the evaluator implementation (FeatureFlag.EvaluateDetail
and its helpers in the ldclient package) is not present under src/, only its
unit tests are; the definitions below follow section 4.4 of the spec, with the
prerequisite-event behaviour pinned by the repository's tests
(TestFlagReturnsOffVariationIfPrerequisiteIsNotFound and friends). Clause
semantics: the segmentMatch operator ignores the attribute field and tests
segment membership in the store (included/excluded sets, then segment rules)
XOR'd with negate; of the attribute-based operators, "in" (value equality)
is the one the claims exercise, and every remaining operator — unrecognized
ones included — evaluates to non-match, as the spec requires for
unrecognized operators. -/

/-- Evaluation context: a key plus named attributes. -/
structure User where
  key : String
  attrs : List (String × LDValue)
deriving DecidableEq, Repr

/-- Attribute lookup; the "key" attribute is always present and equals the
context key, any other attribute may be absent. -/
def userAttr (u : User) (a : String) : Option LDValue :=
  if a = "key" then some (LDValue.str u.key)
  else (u.attrs.lookup a)

structure Prerequisite where
  key : String
  variation : Int
deriving DecidableEq, Repr

structure WeightedVariation where
  variation : Int
  weight : Nat
deriving DecidableEq, Repr

structure Rollout where
  bucketBy : Option String
  variations : List WeightedVariation
deriving DecidableEq, Repr

structure VariationOrRollout where
  variation : Option Int
  rollout : Option Rollout
deriving DecidableEq, Repr

structure Clause where
  attrName : String
  op : String
  values : List LDValue
  negate : Bool
deriving DecidableEq, Repr

/-- A segment rule: implicitly AND-ed clauses (evaluated with the
attribute-based clause semantics, without nested segment lookups, as in the
source) plus an optional weight (out of 100000) bucketing the context with
the segment's own key and salt. -/
structure SegmentRule where
  clauses : List Clause
  weight : Option Nat
  bucketBy : Option String
deriving DecidableEq, Repr

/-- A segment: included/excluded context-key sets and its own rules. -/
structure Segment where
  key : String
  included : List String
  excluded : List String
  rules : List SegmentRule
  salt : String
  version : Nat
deriving DecidableEq, Repr

structure Rule where
  id : String
  clauses : List Clause
  vr : VariationOrRollout
deriving DecidableEq, Repr

structure Target where
  values : List String
  variation : Int
deriving DecidableEq, Repr

structure FeatureFlag where
  key : String
  isOn : Bool
  prerequisites : List Prerequisite
  targets : List Target
  rules : List Rule
  fallthru : VariationOrRollout
  offVariation : Option Int
  variations : List LDValue
  salt : String
  version : Nat
deriving DecidableEq, Repr

/-- Store snapshot read by the evaluator: flags and segments by key. -/
structure Store where
  flags : List (String × FeatureFlag)
  segments : List (String × Segment) := []
deriving DecidableEq, Repr

def lookupFlag (s : Store) (k : String) : Option FeatureFlag :=
  s.flags.lookup k

def lookupSegment (s : Store) (k : String) : Option Segment :=
  s.segments.lookup k

inductive EvalErrorKind where
  | malformedFlag : EvalErrorKind
deriving DecidableEq, Repr

inductive EvalReason where
  | off : EvalReason
  | fallthroughReason : EvalReason
  | targetMatch : EvalReason
  | ruleMatch (ruleIndex : Nat) (ruleId : String) : EvalReason
  | prerequisiteFailed (prereqKey : String) : EvalReason
  | error (kind : EvalErrorKind) : EvalReason
deriving DecidableEq, Repr

structure EvaluationDetail where
  value : LDValue
  variationIndex : Option Int
  reason : EvalReason
deriving DecidableEq, Repr

/-- Evaluation event recorded for each prerequisite flag that was evaluated,
tagged with the key of the flag that required it. -/
structure PrereqEvent where
  key : String
  value : LDValue
  variation : Option Int
  version : Nat
  prereqOf : String
deriving DecidableEq, Repr

/-- The MalformedFlag result: null value, no variation index, error reason. -/
def malformedDetail : EvaluationDetail :=
  { value := LDValue.null, variationIndex := none,
    reason := EvalReason.error EvalErrorKind.malformedFlag }

/-- Bounds-checked variation selection: an out-of-range or negative index is a
malformed flag, surfaced as an error result, never a fault. -/
def getVariation (f : FeatureFlag) (index : Int) (reason : EvalReason) :
    EvaluationDetail :=
  if 0 ≤ index ∧ index.toNat < f.variations.length then
    { value := f.variations.getD index.toNat LDValue.null,
      variationIndex := some index, reason := reason }
  else malformedDetail

/-- Off result: the off variation if set, else the null value. -/
def getOffValue (f : FeatureFlag) (reason : EvalReason) : EvaluationDetail :=
  match f.offVariation with
  | none => { value := LDValue.null, variationIndex := none, reason := reason }
  | some i => getVariation f i reason

/-- Stringified form of an attribute value for bucketing: strings as-is,
integers in decimal; anything else is invalid for bucketing. -/
def bucketableStringValue : Option LDValue → Option String
  | some (LDValue.str s) => some s
  | some (LDValue.num n) => some (toString n)
  | _ => none

/-- Numerator of the bucket value for a context: the 60-bit hash of
"<flagKey>.<salt>.<attrValue>"; a missing or non-bucketable attribute yields
bucket 0. The bucket value proper is this over 0xFFFFFFFFFFFFFFF. -/
def bucketUser (u : User) (flagKey attr salt : String) : Nat :=
  match bucketableStringValue (userAttr u attr) with
  | none => 0
  | some s => bucketIntVal (strBytes (flagKey ++ "." ++ salt ++ "." ++ s))

/-- Denominator of the bucket value: 0xFFFFFFFFFFFFFFF. -/
def bucketScale : Nat := 1152921504606846975

/-- Walk the weighted-variation list accumulating weights (out of 100000)
until the running sum exceeds the bucket value; exact rational comparison
iv / bucketScale < acc / 100000. If the cumulative weight never exceeds the
bucket value, the last variation is selected; an empty list selects nothing
(malformed). -/
def walkRollout (iv : Nat) : Nat → List WeightedVariation → Option Int
  | _, [] => none
  | _, [wv] => some wv.variation
  | acc, wv :: rest =>
      if iv * 100000 < (acc + wv.weight) * bucketScale then some wv.variation
      else walkRollout iv (acc + wv.weight) rest

/-- Resolve a VariationOrRollout to a variation index: a fixed index wins;
otherwise a rollout buckets the context (bucketing attribute defaults to the
context key); neither present, or an empty rollout, resolves to nothing. -/
def variationIndexForUser (vr : VariationOrRollout) (u : User)
    (flagKey salt : String) : Option Int :=
  match vr.variation with
  | some i => some i
  | none =>
    match vr.rollout with
    | none => none
    | some r =>
      walkRollout (bucketUser u flagKey (r.bucketBy.getD "key") salt) 0
        r.variations

/-- Resolve a VariationOrRollout to a result, bounds-checking the index; any
failure is the MalformedFlag error result. -/
def resolveVR (f : FeatureFlag) (vr : VariationOrRollout) (u : User)
    (reason : EvalReason) : EvaluationDetail :=
  match variationIndexForUser vr u f.key f.salt with
  | none => malformedDetail
  | some i => getVariation f i reason

/-- Attribute-operator semantics: "in" is value equality; every other
operator here (unrecognized ones included) never matches. The recognized
segmentMatch operator never reaches this function: it is dispatched before
the attribute is consulted. -/
def matchOp (op : String) (attrVal compVal : LDValue) : Bool :=
  if op = "in" then decide (attrVal = compVal) else false

/-- Attribute-based clause match (the source's matchesUserNoSegments): OR
over the comparison values under the operator, XOR'd with negate — except
that a missing attribute always yields non-match, even when negated. -/
def clauseMatchesUserNoSegments (c : Clause) (u : User) : Bool :=
  match userAttr u c.attrName with
  | none => false
  | some v => Bool.xor (c.values.any (fun cv => matchOp c.op v cv)) c.negate

/-- A segment rule matches iff all its clauses match (attribute-based
semantics) and, when a weight is set, the context buckets below it under the
segment's key and salt (exact rational comparison, as for rollouts). -/
def segmentRuleMatchesUser (r : SegmentRule) (u : User)
    (segKey salt : String) : Bool :=
  if r.clauses.all (fun c => clauseMatchesUserNoSegments c u) then
    match r.weight with
    | none => true
    | some w =>
        decide (bucketUser u segKey (r.bucketBy.getD "key") salt * 100000 <
          w * bucketScale)
  else false

/-- Segment membership: the included list admits by key, then the excluded
list rejects by key, then the segment's own rules are tried in order. -/
def segmentContainsUser (seg : Segment) (u : User) : Bool :=
  if seg.included.contains u.key then true
  else if seg.excluded.contains u.key then false
  else seg.rules.any (fun r => segmentRuleMatchesUser r u seg.key seg.salt)

/-- Full clause match: the segmentMatch operator ignores the attribute field
and instead tests the context's membership (OR across the listed segment
keys, a key absent from the store contributing no match) XOR'd with negate;
every other operator uses the attribute-based semantics. -/
def clauseMatchesUser (store : Store) (c : Clause) (u : User) : Bool :=
  if c.op = "segmentMatch" then
    Bool.xor
      (c.values.any (fun v =>
        match v with
        | LDValue.str segKey =>
            (match lookupSegment store segKey with
             | some seg => segmentContainsUser seg u
             | none => false)
        | _ => false))
      c.negate
  else clauseMatchesUserNoSegments c u

/-- A rule matches iff all of its clauses match. -/
def ruleMatchesUser (store : Store) (r : Rule) (u : User) : Bool :=
  r.clauses.all (fun c => clauseMatchesUser store c u)

/-- First matching rule, with its declaration index. -/
def findMatchingRule (store : Store) (u : User) :
    Nat → List Rule → Option (Nat × Rule)
  | _, [] => none
  | i, r :: rest =>
      if ruleMatchesUser store r u then some (i, r)
      else findMatchingRule store u (i + 1) rest

/-- First target whose included-keys list contains the context key. -/
def findTarget (key : String) : List Target → Option Target
  | [] => none
  | t :: rest => if t.values.contains key then some t else findTarget key rest

/-- Prerequisite loop, parameterized by the recursive evaluator. For each
prerequisite in declaration order: a flag absent from the store fails the
prerequisite immediately and emits no event for it; a present flag is
recursively evaluated, one event is emitted for it (after the events of its
own prerequisites, i.e. depth-first), and the prerequisite passes iff the
flag is on and resolved to the required variation index. The first failure
stops the loop: later prerequisites are not evaluated and emit nothing. -/
def evalPrereqsWith
    (evalF : FeatureFlag → User → Store → EvaluationDetail × List PrereqEvent)
    (parentKey : String) (u : User) (store : Store) :
    List Prerequisite → Option String × List PrereqEvent
  | [] => (none, [])
  | p :: rest =>
    match lookupFlag store p.key with
    | none => (some p.key, [])
    | some pf =>
      let r := evalF pf u store
      let ev : PrereqEvent :=
        { key := pf.key, value := r.1.value, variation := r.1.variationIndex,
          version := pf.version, prereqOf := parentKey }
      if pf.isOn && decide (r.1.variationIndex = some p.variation) then
        let rec2 := evalPrereqsWith evalF parentKey u store rest
        (rec2.1, r.2 ++ ev :: rec2.2)
      else (some p.key, r.2 ++ [ev])

/-- The evaluator: pure function of (flag, context, store) to a result detail
and the ordered list of prerequisite events. Fuel bounds the prerequisite
recursion depth; the source recurses unboundedly on flag cycles (a latent
defect noted by the spec), and every claim under verification concerns
acyclic data, evaluated with ample fuel. -/
def evaluateDetail : Nat → FeatureFlag → User → Store →
    EvaluationDetail × List PrereqEvent
  | 0, _, _, _ => (malformedDetail, [])
  | fuel + 1, f, u, store =>
    if f.isOn = false then (getOffValue f EvalReason.off, [])
    else
      let pr := evalPrereqsWith (evaluateDetail fuel) f.key u store
        f.prerequisites
      match pr.1 with
      | some k => (getOffValue f (EvalReason.prerequisiteFailed k), pr.2)
      | none =>
        match findTarget u.key f.targets with
        | some t => (getVariation f t.variation EvalReason.targetMatch, pr.2)
        | none =>
          match findMatchingRule store u 0 f.rules with
          | some ir =>
              (resolveVR f ir.2.vr u (EvalReason.ruleMatch ir.1 ir.2.id), pr.2)
          | none => (resolveVR f f.fallthru u EvalReason.fallthroughReason, pr.2)

/-! ## Versioned item store

Modelled from the spec: the in-memory versioned data store implementation
(Init/Upsert/Get with per-key version arbitration) is not present under src/,
only its callers and test fixtures are; the definitions follow section 4.2 of
the spec. The store maps (kind, key) to an item descriptor; a descriptor with
an absent item is a tombstone. -/

/-- The closed set of data kinds. -/
inductive StoreDataKind where
  | features : StoreDataKind
  | segments : StoreDataKind
deriving DecidableEq, Repr

/-- Versioned item descriptor; item = none is a tombstone (deleted-but-
versioned). -/
structure StoreItemDescriptor (α : Type) where
  version : Nat
  item : Option α
deriving DecidableEq, Repr

def MemoryStore (α : Type) : Type :=
  StoreDataKind → String → Option (StoreItemDescriptor α)

/-- Single-slot version arbitration: an empty slot always accepts; an occupied
slot accepts only a strictly greater version, silently ignoring (not erroring
on) equal or lower versions. Returns the slot and whether the write applied. -/
def upsertSlot (cur : Option (StoreItemDescriptor α))
    (d : StoreItemDescriptor α) : Option (StoreItemDescriptor α) × Bool :=
  match cur with
  | none => (some d, true)
  | some c => if c.version < d.version then (some d, true) else (some c, false)

/-- Store-level Upsert: conditional single-item write with version
arbitration at (kind, key). -/
def Upsert (s : MemoryStore α) (kind : StoreDataKind) (key : String)
    (d : StoreItemDescriptor α) : MemoryStore α × Bool :=
  let r := upsertSlot (s kind key) d
  (fun k2 key2 => if (k2, key2) = (kind, key) then r.1 else s k2 key2, r.2)

/-- Deliver a sequence of Upserts for one (kind, key) in the given order. -/
def runUpserts (s : MemoryStore α) (kind : StoreDataKind) (key : String)
    (ds : List (StoreItemDescriptor α)) : MemoryStore α :=
  ds.foldl (fun st d => (Upsert st kind key d).1) s

/-- Maximum version carried by a descriptor sequence. -/
def maxVersion (ds : List (StoreItemDescriptor α)) : Nat :=
  ds.foldl (fun m d => max m d.version) 0

/-! ## Data kind deserialization

Modelled from the spec: the data-kind registry (Serialize/Deserialize for the
Features and Segments kinds) is not present under src/, only its unit tests
are. Deserialization parses the JSON wire form; a "deleted": true field
yields a tombstone descriptor carrying the encoded version and no error, and
a malformed encoding yields a decode error with an absent payload. The JSON
values are modelled by the subset of JSON the envelope fields use (objects,
strings, naturals, booleans, null); the entity payload itself is kept as the
parsed JSON object, since field-by-field entity parsing is outside the
claims' scope and identical for both kinds at the envelope level. -/

inductive Json where
  | null : Json
  | bool (b : Bool) : Json
  | num (n : Nat) : Json
  | str (s : String) : Json
  | obj (fields : List (String × Json)) : Json

def jsonQuote : Char := Char.ofNat 34

def jsonLBrace : Char := Char.ofNat 123

def jsonRBrace : Char := Char.ofNat 125

def skipWs : List Char → List Char
  | [] => []
  | c :: rest =>
      if c = ' ' ∨ c = '\t' ∨ c = '\n' ∨ c = '\r' then skipWs rest
      else c :: rest

/-- Parse the remainder of a string literal (no escape sequences; none of the
wire forms under test contain any). -/
def parseStrAux : Nat → List Char → Option (List Char × List Char)
  | 0, _ => none
  | _, [] => none
  | fuel + 1, c :: rest =>
      if c = jsonQuote then some ([], rest)
      else
        match parseStrAux fuel rest with
        | some (s, r) => some (c :: s, r)
        | none => none

def digitsToNat (ds : List Char) : Nat :=
  ds.foldl (fun a c => a * 10 + (c.toNat - 48)) 0

/-- Parse one JSON value; fuel bounds the nesting recursion. -/
def parseJsonAux : Nat → List Char → Option (Json × List Char)
  | 0, _ => none
  | fuel + 1, cs0 =>
    let cs := skipWs cs0
    match cs with
    | [] => none
    | c :: rest =>
      if c = jsonQuote then
        match parseStrAux (rest.length + 1) rest with
        | some (s, r) => some (Json.str (String.mk s), r)
        | none => none
      else if c = jsonLBrace then
        match parseFieldsWith (parseJsonAux fuel) fuel rest with
        | some (fs, r) => some (Json.obj fs, r)
        | none => none
      else if List.isPrefixOf "true".toList cs then some (Json.bool true, cs.drop 4)
      else if List.isPrefixOf "false".toList cs then some (Json.bool false, cs.drop 5)
      else if List.isPrefixOf "null".toList cs then some (Json.null, cs.drop 4)
      else if c.isDigit then
        some (Json.num (digitsToNat (cs.takeWhile Char.isDigit)),
              cs.dropWhile Char.isDigit)
      else none
where
  /-- Parse object fields up to the closing brace, using the supplied value
  parser. -/
  parseFieldsWith (pv : List Char → Option (Json × List Char)) :
      Nat → List Char → Option (List (String × Json) × List Char)
    | 0, _ => none
    | fuel + 1, cs0 =>
      let cs := skipWs cs0
      match cs with
      | [] => none
      | c :: rest =>
        if c = jsonRBrace then some ([], rest)
        else if c = jsonQuote then
          match parseStrAux (rest.length + 1) rest with
          | none => none
          | some (k, r1) =>
            match skipWs r1 with
            | [] => none
            | d :: r2 =>
              if d = ':' then
                match pv r2 with
                | none => none
                | some (v, r3) =>
                  match skipWs r3 with
                  | [] => none
                  | e :: r4 =>
                    if e = ',' then
                      match parseFieldsWith pv fuel r4 with
                      | some (fs, r5) => some ((String.mk k, v) :: fs, r5)
                      | none => none
                    else if e = jsonRBrace then some ([(String.mk k, v)], r4)
                    else none
              else none
        else none

/-- Parse a complete JSON document: one value followed only by whitespace. -/
def parseJson (s : String) : Option Json :=
  match parseJsonAux (s.length + 1) s.toList with
  | some (j, rest) => if skipWs rest = [] then some j else none
  | none => none

def lookupField (fields : List (String × Json)) (k : String) : Option Json :=
  fields.lookup k

/-- Deserialize a parsed wire object: "deleted": true yields a tombstone
carrying the encoded version and no error; a non-object is a decode error
with an absent payload. Both kinds share this envelope handling. -/
def deserializeParsed (kind : StoreDataKind) (j : Json) :
    StoreItemDescriptor Json × Option String :=
  match j with
  | Json.obj fields =>
    let version :=
      match lookupField fields "version" with
      | some (Json.num n) => n
      | _ => 0
    (match lookupField fields "deleted" with
     | some (Json.bool true) => ({ version := version, item := none }, none)
     | _ => ({ version := version, item := some (Json.obj fields) }, none))
  | _ => ({ version := 0, item := none }, some "decode error")

/-- Deserialize(bytes): parse then decode; unparseable bytes are a decode
error with an absent payload. -/
def deserialize (kind : StoreDataKind) (bytes : String) :
    StoreItemDescriptor Json × Option String :=
  match parseJson bytes with
  | none => ({ version := 0, item := none }, some "decode error")
  | some j => deserializeParsed kind j

/-! ## Durable-store reconciliation race

Modelled from the spec: the durable-store consistency wrapper
(utils.NewNonAtomicDataStoreWrapper and the store-specific conditional put)
is not present under src/, only its test harness is; the transition system
below follows the per-Upsert protocol of section 4.3. Each writer reads the
current version, discards its write if the current version is at least the
incoming one, and otherwise attempts an atomic conditional put that succeeds
only while the stored version is still lower than the incoming one; a
conflict is not an error, the writer simply re-reads and repeats. A schedule
is the interleaving: each entry says which writer takes the next atomic
step. -/

inductive WriterState where
  | ready : WriterState
  | observed (c : Nat) : WriterState
  | done : WriterState
deriving DecidableEq, Repr

/-- State of the race: the durable store's current version for the contested
key, and the two writers (incoming versions 2 and 3). -/
structure RaceState where
  stored : Nat
  w2 : WriterState
  w3 : WriterState
deriving DecidableEq, Repr

/-- One atomic step of a writer holding incoming version v: read, or apply
the monotonic rule and the conditional put. -/
def writerStep (v : Nat) (w : WriterState) (stored : Nat) :
    WriterState × Nat :=
  match w with
  | WriterState.ready => (WriterState.observed stored, stored)
  | WriterState.observed c =>
      if v ≤ c then (WriterState.done, stored)
      else if stored < v then (WriterState.done, v)
      else (WriterState.observed stored, stored)
  | WriterState.done => (WriterState.done, stored)

def raceStep (s : RaceState) (choice : Bool) : RaceState :=
  if choice then
    let r := writerStep 2 s.w2 s.stored
    { s with w2 := r.1, stored := r.2 }
  else
    let r := writerStep 3 s.w3 s.stored
    { s with w3 := r.1, stored := r.2 }

def runRace (s : RaceState) (sched : List Bool) : RaceState :=
  sched.foldl raceStep s

/-! ## File data source JSON detection (src/ldfiledata/file_data_source.go) -/

/-- The Go unicode.IsSpace predicate restricted to the code points it
recognizes in Latin-1 (the inputs under test are ASCII). -/
def goIsSpace (c : Char) : Bool :=
  c = ' ' ∨ c = '\t' ∨ c = '\n' ∨ c = Char.ofNat 11 ∨ c = Char.ofNat 12 ∨
    c = '\r' ∨ c = Char.ofNat 133 ∨ c = Char.ofNat 160

/-- strings.TrimLeftFunc(s, unicode.IsSpace). -/
def goTrimLeftSpace (s : String) : String :=
  String.mk (s.toList.dropWhile goIsSpace)

/-- strings.HasPrefix(s, pre): whether s starts with pre. -/
def goStrStartsWith (s pre : String) : Bool :=
  List.isPrefixOf pre.toList s.toList

/-- detectJSON from src/ldfiledata/file_data_source.go line 331: the source
computes strings.HasPrefix("{", trimmed) — that is, whether the trimmed file
content is a prefix of the one-character string "{". -/
def detectJSON (rawData : String) : Bool :=
  goStrStartsWith (String.singleton jsonLBrace) (goTrimLeftSpace rawData)

/-- What the documentation of NewFileDataSourceFactory and the comment inside
detectJSON describe: the file is treated as JSON iff its first non-whitespace
character is '{'. -/
def detectJSONDocumented (rawData : String) : Bool :=
  match (goTrimLeftSpace rawData).toList with
  | c :: _ => c = jsonLBrace
  | [] => false

/-! ## Evaluation series data builder (ldhooks, src/unnamed/part_002)

Go maps are mutable references into a heap, so the copying behaviour of
NewEvaluationSeriesBuilder and Build is modelled with an explicit heap of
maps: references are indices, allocation appends, and Set mutates the
builder's map in place through its reference, exactly as the Go code does. -/

def listModify : List β → Nat → (β → β) → List β
  | [], _, _ => []
  | x :: xs, 0, f => f x :: xs
  | x :: xs, n + 1, f => x :: listModify xs n f

/-- Go map assignment m[k] = v on an association list with unique keys. -/
def mapSet (m : List (String × α)) (k : String) (v : α) :
    List (String × α) :=
  match m with
  | [] => [(k, v)]
  | (k2, v2) :: rest =>
      if k2 = k then (k, v) :: rest else (k2, v2) :: mapSet rest k v

structure HookHeap (α : Type) where
  maps : List (List (String × α))

def heapGetMap (h : HookHeap α) (r : Nat) : List (String × α) :=
  h.maps.getD r []

/-- NewEvaluationSeriesBuilder: allocate a fresh map holding a copy of the
data's map, and hand back a reference to it. -/
def NewEvaluationSeriesBuilder (h : HookHeap α) (dataRef : Nat) :
    HookHeap α × Nat :=
  (⟨h.maps ++ [heapGetMap h dataRef]⟩, h.maps.length)

/-- Set mutates the builder's map in place: b.data[key] = value. -/
def builderSet (h : HookHeap α) (bref : Nat) (k : String) (v : α) :
    HookHeap α :=
  ⟨listModify h.maps bref (fun m => mapSet m k v)⟩

/-- SetFromMap writes every entry of the argument into the builder's map. -/
def builderSetFromMap (h : HookHeap α) (bref : Nat)
    (kvs : List (String × α)) : HookHeap α :=
  ⟨listModify h.maps bref
    (fun m => kvs.foldl (fun acc kv => mapSet acc kv.1 kv.2) m)⟩

/-- Build: allocate a fresh map holding a copy of the builder's map. -/
def Build (h : HookHeap α) (bref : Nat) : HookHeap α × Nat :=
  (⟨h.maps ++ [heapGetMap h bref]⟩, h.maps.length)

/-- EvaluationSeriesData.Get through a data reference. -/
def dataGet (h : HookHeap α) (r : Nat) (k : String) : Option α :=
  (heapGetMap h r).lookup k

inductive BuilderOp (α : Type) where
  | set (k : String) (v : α) : BuilderOp α
  | setFromMap (kvs : List (String × α)) : BuilderOp α

def applyOp (h : HookHeap α) (bref : Nat) : BuilderOp α → HookHeap α
  | BuilderOp.set k v => builderSet h bref k v
  | BuilderOp.setFromMap kvs => builderSetFromMap h bref kvs

def applyOps (h : HookHeap α) (bref : Nat) (ops : List (BuilderOp α)) :
    HookHeap α :=
  ops.foldl (fun acc o => applyOp acc bref o) h

/-! ## Derived definitions used by the theorems -/

/-- A prerequisite passes iff its flag is present in the store, is on, and
recursively resolves to the required variation index. -/
def prereqPasses (fuel : Nat) (p : Prerequisite) (u : User) (store : Store) :
    Bool :=
  match lookupFlag store p.key with
  | none => false
  | some pf =>
      pf.isOn &&
        decide ((evaluateDetail fuel pf u store).1.variationIndex =
          some p.variation)

/-- The events emitted by attempting the given prerequisites in order: for
each prerequisite present in the store, the events of its own recursive
evaluation followed by its own event; an absent prerequisite emits nothing
(and nothing after it runs). -/
def prereqEvents (fuel : Nat) (u : User) (store : Store) (parentKey : String) :
    List Prerequisite → List PrereqEvent
  | [] => []
  | p :: rest =>
    match lookupFlag store p.key with
    | none => []
    | some pf =>
      let r := evaluateDetail fuel pf u store
      r.2 ++
        { key := pf.key, value := r.1.value, variation := r.1.variationIndex,
          version := pf.version, prereqOf := parentKey } ::
        prereqEvents fuel u store parentKey rest

/-- A structurally malformed VariationOrRollout relative to a flag: neither
branch set, an (effective) empty rollout list, or a negative/out-of-range
fixed variation index. -/
def malformedVR (f : FeatureFlag) (vr : VariationOrRollout) : Prop :=
  (vr.variation = none ∧ vr.rollout = none) ∨
  (vr.variation = none ∧ ∃ r, vr.rollout = some r ∧ r.variations = []) ∨
  (∃ i, vr.variation = some i ∧
    (i < 0 ∨ (f.variations.length : Int) ≤ i))

/-- A boolean flag whose single rule holds the given clause (mirrors the
tests' booleanFlagWithClause helper). -/
def boolFlagClause (c : Clause) : FeatureFlag :=
  { key := "feature", isOn := true, prerequisites := [], targets := [],
    rules := [{ id := "", clauses := [c], vr := { variation := some 1, rollout := none } }],
    fallthru := { variation := some 0, rollout := none },
    offVariation := none,
    variations := [LDValue.bool false, LDValue.bool true],
    salt := "", version := 0 }

/-! Concrete fixtures mirroring the repository's evaluator tests. -/

def specUser : User := { key := "x", attrs := [] }

def emptyStoreDef : Store := { flags := [] }

/-- feature0: on, requires variation 1 of feature1, off variation 1. -/
def specF0 : FeatureFlag :=
  { key := "feature0", isOn := true,
    prerequisites := [{ key := "feature1", variation := 1 }],
    targets := [], rules := [],
    fallthru := { variation := some 0, rollout := none },
    offVariation := some 1,
    variations := [LDValue.str "fall", LDValue.str "off", LDValue.str "on"],
    salt := "", version := 1 }

/-- feature1 in the off-prerequisite scenario: off, but its off variation is
the required index 1. -/
def specF1Off : FeatureFlag :=
  { key := "feature1", isOn := false, prerequisites := [], targets := [],
    rules := [],
    fallthru := { variation := some 0, rollout := none },
    offVariation := some 1,
    variations := [LDValue.str "nogo", LDValue.str "go"],
    salt := "", version := 2 }

def specStoreOff : Store := { flags := [("feature1", specF1Off)] }

/-- feature1 in the passing cascade: on, requires variation 1 of feature2,
falls through to variation 1. -/
def specF1Chain : FeatureFlag :=
  { key := "feature1", isOn := true,
    prerequisites := [{ key := "feature2", variation := 1 }],
    targets := [], rules := [],
    fallthru := { variation := some 1, rollout := none },
    offVariation := some 1,
    variations := [LDValue.str "nogo", LDValue.str "go"],
    salt := "", version := 2 }

/-- feature2: on, no prerequisites, falls through to variation 1. -/
def specF2 : FeatureFlag :=
  { key := "feature2", isOn := true, prerequisites := [], targets := [],
    rules := [],
    fallthru := { variation := some 1, rollout := none },
    offVariation := none,
    variations := [LDValue.str "nogo", LDValue.str "go"],
    salt := "", version := 3 }

def specStoreChain : Store :=
  { flags := [("feature1", specF1Chain), ("feature2", specF2)] }

/-- The 60/40 rollout of the bucketing test. -/
def specRollout : Rollout :=
  { bucketBy := none,
    variations := [{ variation := 0, weight := 60000 },
                   { variation := 1, weight := 40000 }] }

def specRolloutVR : VariationOrRollout :=
  { variation := none, rollout := some specRollout }

/-- Wire form of a deleted flag item (data_kinds_test.go). -/
def tombJson : String :=
  "\x7b\"key\":\"flagkey\",\"version\":2,\"deleted\":true\x7d"

/-- Truncated, unparseable wire form (data_kinds_test.go). -/
def badJson : String := "\x7b\"key\":\"flagkey\""

/-- A JSON object file body whose first non-whitespace character is a left
brace. -/
def jsonObjectInput : String := "\x7b\"flags\":\x7b\x7d\x7d"

/-! # Theorems -/

/-- Folding upserts into an occupied slot keeps a descriptor drawn from the
initial content or the delivered sequence, carrying the running maximum
version. -/
theorem foldSlot_max {α : Type} (rest : List (StoreItemDescriptor α)) :
    ∀ c : StoreItemDescriptor α,
    ∃ m, rest.foldl (fun st d => (upsertSlot st d).1) (some c) = some m ∧
      (m = c ∨ m ∈ rest) ∧
      m.version = rest.foldl (fun a d => max a d.version) c.version := by
  induction rest with
  | nil => intro c; exact ⟨c, rfl, Or.inl rfl, rfl⟩
  | cons d rest ih =>
    intro c
    by_cases h : c.version < d.version
    · have hs : (upsertSlot (some c) d).1 = some d := by simp [upsertSlot, h]
      obtain ⟨m, hm, hmem, hv⟩ := ih d
      refine ⟨m, ?_, ?_, ?_⟩
      · simpa [List.foldl_cons, hs] using hm
      · rcases hmem with h2 | h2
        · exact Or.inr (by simp [h2])
        · exact Or.inr (by simp [h2])
      · rw [List.foldl_cons, Nat.max_eq_right (Nat.le_of_lt h)]
        exact hv
    · have hs : (upsertSlot (some c) d).1 = some c := by simp [upsertSlot, h]
      obtain ⟨m, hm, hmem, hv⟩ := ih c
      refine ⟨m, ?_, ?_, ?_⟩
      · simpa [List.foldl_cons, hs] using hm
      · rcases hmem with h2 | h2
        · exact Or.inl h2
        · exact Or.inr (by simp [h2])
      · rw [List.foldl_cons, Nat.max_eq_left (Nat.le_of_not_lt h)]
        exact hv

/-- Reading the written (kind, key) after a burst of Upserts to it sees the
slot-level fold of the sequence. -/
theorem runUpserts_slot {α : Type} (ds : List (StoreItemDescriptor α)) :
    ∀ (s : MemoryStore α) (kind : StoreDataKind) (key : String),
    runUpserts s kind key ds kind key =
      ds.foldl (fun st d => (upsertSlot st d).1) (s kind key) := by
  induction ds with
  | nil => intro s kind key; rfl
  | cons d rest ih =>
    intro s kind key
    have h1 : (Upsert s kind key d).1 kind key =
        (upsertSlot (s kind key) d).1 := by
      simp [Upsert]
    have h2 : runUpserts s kind key (d :: rest) kind key =
        runUpserts ((Upsert s kind key d).1) kind key rest kind key := rfl
    rw [h2, ih, h1, List.foldl_cons]

/-- C1: Upsert writes only when the incoming descriptor's version is strictly
greater than the currently stored version (an equal or lower version is
silently ignored, leaving the slot unchanged, and is not an error), and after
any finite sequence of Upserts for one (kind, key) delivered in any order into
an empty slot, the stored descriptor is one of the delivered descriptors and
carries the maximum delivered version — a tombstone exactly when that
max-version descriptor is a delete. -/
theorem upsert_version_arbitration {α : Type} :
    (∀ (s : MemoryStore α) (kind : StoreDataKind) (key : String)
       (d c : StoreItemDescriptor α), s kind key = some c →
       ((Upsert s kind key d).2 = true ↔ c.version < d.version) ∧
       ((Upsert s kind key d).2 = false →
         (Upsert s kind key d).1 kind key = some c)) ∧
    (∀ (s : MemoryStore α) (kind : StoreDataKind) (key : String)
       (ds : List (StoreItemDescriptor α)), s kind key = none → ds ≠ [] →
       ∃ m, runUpserts s kind key ds kind key = some m ∧ m ∈ ds ∧
         m.version = maxVersion ds) := by
  constructor
  · intro s kind key d c hc
    constructor
    · simp [Upsert, upsertSlot, hc]
      split <;> simp_all
    · intro hfalse
      simp only [Upsert, upsertSlot, hc] at hfalse ⊢
      split at hfalse
      · simp at hfalse
      · rename_i hle
        rw [if_neg hle]
        simp
  · intro s kind key ds h0 hne
    match ds, hne with
    | d :: rest, _ =>
      rw [runUpserts_slot, h0]
      obtain ⟨m, hm, hmem, hv⟩ := foldSlot_max rest d
      refine ⟨m, ?_, ?_, ?_⟩
      · simpa [List.foldl_cons, upsertSlot] using hm
      · rcases hmem with h2 | h2
        · simp [h2]
        · simp [h2]
      · rw [hv]
        simp [maxVersion, List.foldl_cons, Nat.zero_max]

/-- Witness for upsert_version_arbitration at concrete inputs: a version-2
write over version 1 applies, and delivering versions 2, 3 (a tombstone), 1
out of order leaves the version-3 tombstone stored. -/
theorem upsert_version_arbitration_witness :
    ((Upsert (fun _ _ => some ⟨1, (none : Option Nat)⟩)
        StoreDataKind.features "k" ⟨2, some 7⟩).2 = true) ∧
    (∃ m, runUpserts (fun _ _ => (none : Option (StoreItemDescriptor Nat)))
        StoreDataKind.features "k" [⟨2, some 5⟩, ⟨3, none⟩, ⟨1, some 4⟩]
        StoreDataKind.features "k" = some m ∧
        m ∈ [(⟨2, some 5⟩ : StoreItemDescriptor Nat), ⟨3, none⟩, ⟨1, some 4⟩] ∧
        m.version = maxVersion [(⟨2, some 5⟩ : StoreItemDescriptor Nat), ⟨3, none⟩, ⟨1, some 4⟩]) :=
  ⟨((upsert_version_arbitration.1 _ StoreDataKind.features "k" _ _ rfl).1).mpr
      (by decide),
   upsert_version_arbitration.2 _ StoreDataKind.features "k" _ rfl
      (by simp)⟩

/-- The prerequisite loop stops at the first failing prerequisite: with every
earlier prerequisite passing and p failing, it reports p's key and exactly
the events of the attempts up to and including p — the remaining
prerequisites are not evaluated and emit nothing. -/
theorem evalPrereqs_first_failure (fuel : Nat) (u : User) (store : Store)
    (pk : String) (p : Prerequisite) (post : List Prerequisite) :
    ∀ pre : List Prerequisite,
    (∀ q ∈ pre, prereqPasses fuel q u store = true) →
    prereqPasses fuel p u store = false →
    evalPrereqsWith (evaluateDetail fuel) pk u store (pre ++ p :: post) =
      (some p.key, prereqEvents fuel u store pk (pre ++ [p])) := by
  intro pre
  induction pre with
  | nil =>
    intro _ hfail
    simp only [List.nil_append]
    cases hlk : lookupFlag store p.key with
    | none => simp [evalPrereqsWith, prereqEvents, hlk]
    | some pf =>
      have hc : (pf.isOn && decide
          ((evaluateDetail fuel pf u store).1.variationIndex =
            some p.variation)) = false := by
        simpa [prereqPasses, hlk] using hfail
      simp [evalPrereqsWith, prereqEvents, hlk, hc]
  | cons q pre ih =>
    intro hpass hfail
    have hq := hpass q (by simp)
    cases hlk : lookupFlag store q.key with
    | none => simp [prereqPasses, hlk] at hq
    | some qf =>
      have hc : (qf.isOn && decide
          ((evaluateDetail fuel qf u store).1.variationIndex =
            some q.variation)) = true := by
        simpa [prereqPasses, hlk] using hq
      have ihh := ih (fun r hr => hpass r (by simp [hr])) hfail
      simp only [List.cons_append]
      simp [evalPrereqsWith, prereqEvents, hlk, hc, ihh]

/-- C2: the first prerequisite that fails (off, missing from the store, or
resolving to a variation index other than the required one) stops the whole
evaluation with Reason = PrerequisiteFailed of that prerequisite's key and
value = the flag's off variation, the remaining prerequisites are not
evaluated and produce no events; concretely, with feature0 requiring
variation 1 of feature1 and feature1 off, the result is
PrerequisiteFailed("feature1"), the off value, and exactly one event, for
feature1 only. -/
theorem prereq_short_circuit :
    (∀ (fuel : Nat) (f : FeatureFlag) (u : User) (store : Store)
       (pre : List Prerequisite) (p : Prerequisite)
       (post : List Prerequisite),
       f.isOn = true → f.prerequisites = pre ++ p :: post →
       (∀ q ∈ pre, prereqPasses fuel q u store = true) →
       prereqPasses fuel p u store = false →
       evaluateDetail (fuel + 1) f u store =
         (getOffValue f (EvalReason.prerequisiteFailed p.key),
          prereqEvents fuel u store f.key (pre ++ [p]))) ∧
    evaluateDetail 2 specF0 specUser specStoreOff =
      ({ value := LDValue.str "off", variationIndex := some 1,
         reason := EvalReason.prerequisiteFailed "feature1" },
       [{ key := "feature1", value := LDValue.str "go", variation := some 1,
          version := 2, prereqOf := "feature0" }]) := by
  constructor
  · intro fuel f u store pre p post hon hpre hpass hfail
    have hloop := evalPrereqs_first_failure fuel u store f.key p post pre
      hpass hfail
    simp [evaluateDetail, hon, hpre, hloop]
  · decide

/-- Witness for prereq_short_circuit: the off-prerequisite scenario, with all
hypotheses discharged at fuel 1, an empty passing segment, and the failing
prerequisite on feature1. -/
theorem prereq_short_circuit_witness :
    prereqPasses 1 { key := "feature1", variation := 1 } specUser
      specStoreOff = false ∧
    evaluateDetail 2 specF0 specUser specStoreOff =
      (getOffValue specF0 (EvalReason.prerequisiteFailed "feature1"),
       prereqEvents 1 specUser specStoreOff "feature0"
         [{ key := "feature1", variation := 1 }]) :=
  ⟨by decide,
   prereq_short_circuit.1 1 specF0 specUser specStoreOff []
     { key := "feature1", variation := 1 } [] rfl rfl (by simp) (by decide)⟩

/-- C3 counterexample: a prerequisite whose flag is absent from the store is
attempted — the evaluation fails on it with PrerequisiteFailed — yet emits
zero events, refuting "exactly one evaluation event is emitted per
prerequisite attempted, including a prerequisite whose referenced flag is
absent from the store". -/
theorem prereq_missing_no_event_counterexample :
    specF0.prerequisites.length = 1 ∧
    (evaluateDetail 2 specF0 specUser emptyStoreDef).1.reason =
      EvalReason.prerequisiteFailed "feature1" ∧
    (evaluateDetail 2 specF0 specUser emptyStoreDef).2 = [] := by
  decide

/-- C3 (amended): one evaluation event is emitted per prerequisite attempted
whose referenced flag is present in the store — a prerequisite absent from
the store fails the evaluation without emitting an event — and events are
ordered depth-first with the deepest dependency first, each tagged with the
evaluating flag's key as prereqOf; the passing 3-level chain
feature0→feature1→feature2 yields exactly two events, the feature2 event
(prereqOf feature1) first, then the feature1 event (prereqOf feature0), and
feature0 resolves via Fallthrough. -/
theorem prereq_events_depth_first :
    (∀ (fuel : Nat) (u : User) (store : Store) (pk : String)
       (p : Prerequisite) (rest : List Prerequisite),
       lookupFlag store p.key = none →
       evalPrereqsWith (evaluateDetail fuel) pk u store (p :: rest) =
         (some p.key, [])) ∧
    evaluateDetail 3 specF0 specUser specStoreChain =
      ({ value := LDValue.str "fall", variationIndex := some 0,
         reason := EvalReason.fallthroughReason },
       [{ key := "feature2", value := LDValue.str "go", variation := some 1,
          version := 3, prereqOf := "feature1" },
        { key := "feature1", value := LDValue.str "go", variation := some 1,
          version := 2, prereqOf := "feature0" }]) := by
  constructor
  · intro fuel u store pk p rest hlk
    simp [evalPrereqsWith, hlk]
  · decide

/-- Witness for prereq_events_depth_first: the absent-prerequisite branch at
a concrete store. -/
theorem prereq_events_depth_first_witness :
    evalPrereqsWith (evaluateDetail 1) "feature0" specUser emptyStoreDef
      [{ key := "feature1", variation := 1 }] = (some "feature1", []) :=
  prereq_events_depth_first.1 1 specUser emptyStoreDef "feature0"
    { key := "feature1", variation := 1 } [] rfl

/-- A structurally malformed VariationOrRollout always resolves to the
MalformedFlag error result. -/
theorem resolveVR_malformed (f : FeatureFlag) (vr : VariationOrRollout)
    (u : User) (reason : EvalReason) (h : malformedVR f vr) :
    resolveVR f vr u reason = malformedDetail := by
  rcases h with ⟨h1, h2⟩ | ⟨h1, r, h2, h3⟩ | ⟨i, h1, h2⟩
  · simp [resolveVR, variationIndexForUser, h1, h2]
  · simp [resolveVR, variationIndexForUser, h1, h2, h3, walkRollout]
  · have hb : ¬ (0 ≤ i ∧ i.toNat < f.variations.length) := by omega
    simp [resolveVR, variationIndexForUser, h1, getVariation, hb]

/-- C4: whether reached via fallthrough (no rule matches) or via the first
matching rule, a VariationOrRollout with neither branch set, an empty
weighted-variation list, or a negative or out-of-range fixed variation index
makes Evaluate return Reason = Error(MalformedFlag) with a null value and
zero events; the error is the returned result of a total function, never a
fault. -/
theorem malformed_flag_error :
    (∀ (n : Nat) (f : FeatureFlag) (u : User) (s : Store),
       f.isOn = true → f.prerequisites = [] →
       findTarget u.key f.targets = none →
       findMatchingRule s u 0 f.rules = none →
       malformedVR f f.fallthru →
       evaluateDetail (n + 1) f u s = (malformedDetail, [])) ∧
    (∀ (n : Nat) (f : FeatureFlag) (u : User) (s : Store) (i : Nat)
       (r : Rule),
       f.isOn = true → f.prerequisites = [] →
       findTarget u.key f.targets = none →
       findMatchingRule s u 0 f.rules = some (i, r) →
       malformedVR f r.vr →
       evaluateDetail (n + 1) f u s = (malformedDetail, [])) := by
  constructor
  · intro n f u s hon hpre htgt hrule hmal
    simp [evaluateDetail, hon, hpre, evalPrereqsWith, htgt, hrule,
      resolveVR_malformed f f.fallthru u EvalReason.fallthroughReason hmal]
  · intro n f u s i r hon hpre htgt hrule hmal
    simp [evaluateDetail, hon, hpre, evalPrereqsWith, htgt, hrule,
      resolveVR_malformed f r.vr u (EvalReason.ruleMatch i r.id) hmal]

/-- Witness for malformed_flag_error: a fallthrough fixed index of 999 with
three variations, and a matched rule with fixed index 999, both yield the
MalformedFlag error result and zero events. -/
theorem malformed_flag_error_witness :
    evaluateDetail 1
      { key := "feature", isOn := true, prerequisites := [], targets := [],
        rules := [],
        fallthru := { variation := some 999, rollout := none },
        offVariation := some 1,
        variations := [LDValue.str "fall", LDValue.str "off",
          LDValue.str "on"],
        salt := "", version := 1 } specUser emptyStoreDef =
      (malformedDetail, []) ∧
    evaluateDetail 1
      { key := "feature", isOn := true, prerequisites := [], targets := [],
        rules := [{ id := "rule-id",
                    clauses := [{ attrName := "key", op := "in",
                                  values := [LDValue.str "x"],
                                  negate := false }],
                    vr := { variation := some 999, rollout := none } }],
        fallthru := { variation := some 0, rollout := none },
        offVariation := some 1,
        variations := [LDValue.str "fall", LDValue.str "off",
          LDValue.str "on"],
        salt := "", version := 1 } specUser emptyStoreDef =
      (malformedDetail, []) :=
  ⟨malformed_flag_error.1 0 _ specUser emptyStoreDef rfl rfl rfl rfl
      (Or.inr (Or.inr ⟨999, rfl, Or.inr (by decide)⟩)),
   malformed_flag_error.2 0 _ specUser emptyStoreDef 0
      { id := "rule-id",
        clauses := [{ attrName := "key", op := "in",
                      values := [LDValue.str "x"], negate := false }],
        vr := { variation := some 999, rollout := none } }
      rfl rfl rfl (by decide)
      (Or.inr (Or.inr ⟨999, rfl, Or.inr (by decide)⟩))⟩

/-- C5 counterexample: under the faithful clause semantics the original
claim fails — a segmentMatch clause ignores its named attribute, so a
negated segmentMatch clause whose listed segment does not contain the
context matches even though the clause's named attribute is absent:
negation does turn an absent attribute into a match here. -/
theorem clause_missing_attribute_counterexample :
    userAttr specUser "legs" = none ∧
    clauseMatchesUser emptyStoreDef
      { attrName := "legs", op := "segmentMatch",
        values := [LDValue.str "segkey"], negate := true } specUser =
      true := by
  exact ⟨rfl, rfl⟩

/-- C5 (amended): for every clause whose operator is not segmentMatch — the
segmentMatch operator ignores the attribute field and tests segment
membership XOR'd with negate instead — an absent named attribute yields
non-match even when negate is true, and a present attribute matches iff its
value matches any of the comparison values under the operator, XOR'd with
negate; consequently a boolean flag guarded by such an absent-attribute
clause falls through to its false variation. -/
theorem clause_missing_attribute :
    (∀ (store : Store) (c : Clause) (u : User), c.op ≠ "segmentMatch" →
       userAttr u c.attrName = none →
       clauseMatchesUser store c u = false) ∧
    (∀ (store : Store) (c : Clause) (u : User) (v : LDValue),
       c.op ≠ "segmentMatch" → userAttr u c.attrName = some v →
       clauseMatchesUser store c u =
         Bool.xor (c.values.any (fun cv => matchOp c.op v cv)) c.negate) ∧
    (∀ (c : Clause) (u : User) (fuel : Nat), c.op ≠ "segmentMatch" →
       userAttr u c.attrName = none →
       evaluateDetail (fuel + 1) (boolFlagClause c) u emptyStoreDef =
         ({ value := LDValue.bool false, variationIndex := some 0,
            reason := EvalReason.fallthroughReason }, [])) := by
  refine ⟨?_, ?_, ?_⟩
  · intro store c u hop h
    simp [clauseMatchesUser, clauseMatchesUserNoSegments, hop, h]
  · intro store c u v hop h
    simp [clauseMatchesUser, clauseMatchesUserNoSegments, hop, h]
  · intro c u fuel hop h
    have hm : clauseMatchesUser emptyStoreDef c u = false := by
      simp [clauseMatchesUser, clauseMatchesUserNoSegments, hop, h]
    simp [evaluateDetail, boolFlagClause, evalPrereqsWith, findTarget,
      findMatchingRule, ruleMatchesUser, hm, resolveVR,
      variationIndexForUser, getVariation]

/-- Witness for clause_missing_attribute: a negated "in" clause on the
absent attribute "legs" does not match, and the guarding boolean flag
resolves to false via fallthrough. -/
theorem clause_missing_attribute_witness :
    clauseMatchesUser emptyStoreDef
      { attrName := "legs", op := "in", values := [LDValue.num 4],
        negate := true } specUser = false ∧
    evaluateDetail 1
      (boolFlagClause
        { attrName := "legs", op := "in", values := [LDValue.num 4],
          negate := true }) specUser emptyStoreDef =
      ({ value := LDValue.bool false, variationIndex := some 0,
         reason := EvalReason.fallthroughReason }, []) :=
  ⟨clause_missing_attribute.1 emptyStoreDef _ specUser (by decide) rfl,
   clause_missing_attribute.2.2 _ specUser 0 (by decide) rfl⟩

set_option maxRecDepth 1000000

/-- C6: for the 60/40 weighted rollout under flag key "hashKey" and salt
"saltyA", the contexts with keys userKeyA, userKeyB and userKeyC are bucketed
by the stable hash of "hashKey.saltyA.<key>" and select variation indices 0,
1 and 0 respectively by walking the weighted-variation list until the
accumulated weight exceeds the bucket value. -/
theorem rollout_selection_users :
    variationIndexForUser specRolloutVR { key := "userKeyA", attrs := [] }
      "hashKey" "saltyA" = some 0 ∧
    variationIndexForUser specRolloutVR { key := "userKeyB", attrs := [] }
      "hashKey" "saltyA" = some 1 ∧
    variationIndexForUser specRolloutVR { key := "userKeyC", attrs := [] }
      "hashKey" "saltyA" = some 0 := by
  refine ⟨?_, ?_, ?_⟩ <;> decide

/-- C7: for either data kind, a wire object carrying "deleted": true
deserializes to a tombstone descriptor with the encoded version and no
error, and a malformed encoding deserializes to a decode error with an
absent payload; concretely on the test inputs, the deleted flag object
yields (version 2, no item, no error) and the truncated object yields a
decode error with no item. -/
theorem deserialize_tombstone_and_error :
    (∀ (kind : StoreDataKind) (fields : List (String × Json)) (v : Nat),
       lookupField fields "deleted" = some (Json.bool true) →
       lookupField fields "version" = some (Json.num v) →
       deserializeParsed kind (Json.obj fields) =
         ({ version := v, item := none }, none)) ∧
    (∀ (kind : StoreDataKind) (s : String), parseJson s = none →
       deserialize kind s =
         ({ version := 0, item := none }, some "decode error")) ∧
    (∀ kind : StoreDataKind, deserialize kind tombJson =
       ({ version := 2, item := none }, none)) ∧
    (∀ kind : StoreDataKind, (deserialize kind badJson).1.item = none ∧
       (deserialize kind badJson).2 = some "decode error") := by
  refine ⟨?_, ?_, ?_, ?_⟩
  · intro kind fields v hdel hver
    simp [deserializeParsed, hdel, hver]
  · intro kind s hp
    simp [deserialize, hp]
  · intro kind
    rfl
  · intro kind
    exact ⟨rfl, rfl⟩

/-- Witness for deserialize_tombstone_and_error: the envelope branch at a
concrete field list, and the decode-error branch at the truncated input. -/
theorem deserialize_tombstone_witness :
    deserializeParsed StoreDataKind.segments
      (Json.obj [("key", Json.str "segmentkey"), ("version", Json.num 2),
        ("deleted", Json.bool true)]) =
      ({ version := 2, item := none }, none) ∧
    deserialize StoreDataKind.features badJson =
      ({ version := 0, item := none }, some "decode error") :=
  ⟨deserialize_tombstone_and_error.1 StoreDataKind.segments _ 2 rfl rfl,
   deserialize_tombstone_and_error.2.1 StoreDataKind.features badJson rfl⟩

/-- C9: the code of detectJSON contradicts its own documentation. The
documented rule treats any content whose first non-whitespace character is a
left brace as JSON; the implementation passes its arguments to the prefix
test in the wrong order, so a real JSON object body is routed to the YAML
parser, and detectJSON returns true only for content that trims to the empty
string or to exactly one left brace. -/
theorem detectJSON_object_misdetected :
    detectJSONDocumented jsonObjectInput = true ∧
    detectJSON jsonObjectInput = false ∧
    detectJSON "" = true ∧
    detectJSON (String.singleton jsonLBrace) = true := by
  refine ⟨?_, ?_, ?_, ?_⟩ <;> decide


/-- One atomic step of either writer preserves the reconciliation invariant:
the durable version never exceeds 3, the version-3 writer finishing implies 3
is stored, and any version it has observed is at most the stored one. -/
theorem raceStep_invariant (s : RaceState) (b : Bool)
    (h1 : s.stored ≤ 3) (h2 : s.w3 = WriterState.done → s.stored = 3)
    (h3 : ∀ c, s.w3 = WriterState.observed c → c ≤ s.stored) :
    (raceStep s b).stored ≤ 3 ∧
    ((raceStep s b).w3 = WriterState.done → (raceStep s b).stored = 3) ∧
    (∀ c, (raceStep s b).w3 = WriterState.observed c →
      c ≤ (raceStep s b).stored) := by
  cases b with
  | true =>
    cases hw : s.w2 with
    | ready => simpa [raceStep, writerStep, hw] using ⟨h1, h2, h3⟩
    | observed c2 =>
      by_cases hc : 2 ≤ c2
      · simpa [raceStep, writerStep, hw, hc] using ⟨h1, h2, h3⟩
      · by_cases hs : s.stored < 2
        · refine ⟨?_, ?_, ?_⟩
          · simp [raceStep, writerStep, hw, hc, hs]
          · simp [raceStep, writerStep, hw, hc, hs]
            intro hd
            have := h2 hd
            omega
          · simp [raceStep, writerStep, hw, hc, hs]
            intro c hcc
            have := h3 c hcc
            omega
        · simpa [raceStep, writerStep, hw, hc, hs] using ⟨h1, h2, h3⟩
    | done => simpa [raceStep, writerStep, hw] using ⟨h1, h2, h3⟩
  | false =>
    cases hw : s.w3 with
    | ready =>
      refine ⟨by simpa [raceStep, writerStep, hw] using h1, ?_, ?_⟩
      · simp [raceStep, writerStep, hw]
      · simp [raceStep, writerStep, hw]
    | observed c3 =>
      have hc3 := h3 c3 hw
      by_cases hc : 3 ≤ c3
      · refine ⟨by simpa [raceStep, writerStep, hw, hc] using h1, ?_, ?_⟩
        · simp [raceStep, writerStep, hw, hc]
          omega
        · simp [raceStep, writerStep, hw, hc]
      · by_cases hs : s.stored < 3
        · refine ⟨?_, ?_, ?_⟩ <;> simp [raceStep, writerStep, hw, hc, hs]
        · refine ⟨by simpa [raceStep, writerStep, hw, hc, hs] using h1,
            ?_, ?_⟩
          · simp [raceStep, writerStep, hw, hc, hs]
          · simp [raceStep, writerStep, hw, hc, hs]
    | done =>
      have hst := h2 hw
      refine ⟨by simpa [raceStep, writerStep, hw] using h1, ?_, ?_⟩
      · simp [raceStep, writerStep, hw, hst]
      · simp [raceStep, writerStep, hw]

/-- The reconciliation invariant is preserved by every interleaving. -/
theorem runRace_invariant (sched : List Bool) :
    ∀ s : RaceState,
    (s.stored ≤ 3 ∧ (s.w3 = WriterState.done → s.stored = 3) ∧
      (∀ c, s.w3 = WriterState.observed c → c ≤ s.stored)) →
    ((runRace s sched).stored ≤ 3 ∧
      ((runRace s sched).w3 = WriterState.done →
        (runRace s sched).stored = 3) ∧
      (∀ c, (runRace s sched).w3 = WriterState.observed c →
        c ≤ (runRace s sched).stored)) := by
  induction sched with
  | nil => intro s h; exact h
  | cons b rest ih =>
    intro s h
    have hrun : runRace s (b :: rest) = runRace (raceStep s b) rest := rfl
    rw [hrun]
    exact ih (raceStep s b) (raceStep_invariant s b h.1 h.2.1 h.2.2)

/-- C8: two concurrent Upserts of versions 2 and 3 to the same key through
the reconciliation protocol (read, monotonic check, conditional put, re-read
and retry on conflict — a conflict is not an error) converge: under every
interleaving in which the version-3 writer has completed, the durable store
holds version 3, regardless of which writer's conditional-put attempt went
first. -/
theorem durable_race_converges :
    ∀ (s0 : Nat) (sched : List Bool), s0 < 3 →
    (runRace ⟨s0, WriterState.ready, WriterState.ready⟩ sched).w3 =
      WriterState.done →
    (runRace ⟨s0, WriterState.ready, WriterState.ready⟩ sched).stored = 3 := by
  intro s0 sched h0 hdone
  have h := runRace_invariant sched ⟨s0, WriterState.ready, WriterState.ready⟩
    ⟨show s0 ≤ 3 by omega, by simp, by simp⟩
  exact h.2.1 hdone

/-- Witness for durable_race_converges: a schedule in which the version-2
writer's conditional put lands first and the version-3 writer completes
afterwards; both writers finish and version 3 is stored. -/
theorem durable_race_converges_witness :
    (runRace ⟨1, WriterState.ready, WriterState.ready⟩
      [true, false, true, false, false]).w3 = WriterState.done ∧
    (runRace ⟨1, WriterState.ready, WriterState.ready⟩
      [true, false, true, false, false]).stored = 3 :=
  ⟨by decide, durable_race_converges 1 [true, false, true, false, false]
    (by decide) (by decide)⟩

theorem listModify_length {β : Type} (l : List β) :
    ∀ (i : Nat) (f : β → β), (listModify l i f).length = l.length := by
  induction l with
  | nil => intro i f; rfl
  | cons x xs ih =>
    intro i f
    cases i with
    | zero => rfl
    | succ n => simp [listModify, ih]

theorem listModify_getD_ne {β : Type} (l : List β) :
    ∀ (i j : Nat) (f : β → β) (d : β), j ≠ i →
    (listModify l i f).getD j d = l.getD j d := by
  induction l with
  | nil => intro i j f d h; rfl
  | cons x xs ih =>
    intro i j f d h
    cases i with
    | zero =>
      cases j with
      | zero => exact absurd rfl h
      | succ m => rfl
    | succ n =>
      cases j with
      | zero => rfl
      | succ m =>
        simp only [listModify, List.getD_cons_succ]
        exact ih n m f d (by omega)

theorem applyOp_maps_length {α : Type} (h : HookHeap α) (bref : Nat)
    (o : BuilderOp α) : (applyOp h bref o).maps.length = h.maps.length := by
  cases o <;>
    simp [applyOp, builderSet, builderSetFromMap, listModify_length]

theorem applyOps_maps_length {α : Type} (ops : List (BuilderOp α)) :
    ∀ (h : HookHeap α) (bref : Nat),
    (applyOps h bref ops).maps.length = h.maps.length := by
  induction ops with
  | nil => intro h bref; rfl
  | cons o rest ih =>
    intro h bref
    have : applyOps h bref (o :: rest) =
        applyOps (applyOp h bref o) bref rest := rfl
    rw [this, ih, applyOp_maps_length]

theorem heapGetMap_applyOp_ne {α : Type} (h : HookHeap α) (bref r : Nat)
    (o : BuilderOp α) (hne : r ≠ bref) :
    heapGetMap (applyOp h bref o) r = heapGetMap h r := by
  cases o with
  | set k v =>
    show (listModify h.maps bref _).getD r [] = h.maps.getD r []
    exact listModify_getD_ne _ _ _ _ _ hne
  | setFromMap kvs =>
    show (listModify h.maps bref _).getD r [] = h.maps.getD r []
    exact listModify_getD_ne _ _ _ _ _ hne

theorem heapGetMap_applyOps_ne {α : Type} (ops : List (BuilderOp α)) :
    ∀ (h : HookHeap α) (bref r : Nat), r ≠ bref →
    heapGetMap (applyOps h bref ops) r = heapGetMap h r := by
  induction ops with
  | nil => intro h bref r hne; rfl
  | cons o rest ih =>
    intro h bref r hne
    have : applyOps h bref (o :: rest) =
        applyOps (applyOp h bref o) bref rest := rfl
    rw [this, ih _ _ _ hne, heapGetMap_applyOp_ne _ _ _ _ hne]

theorem heapGetMap_alloc_lt {α : Type} (l : List (List (String × α)))
    (m : List (String × α)) (r : Nat) (h : r < l.length) :
    heapGetMap (⟨l ++ [m]⟩ : HookHeap α) r = heapGetMap (⟨l⟩ : HookHeap α) r := by
  simp [heapGetMap, List.getD_eq_getElem?_getD, List.getElem?_append, h]

/-- C10: the original EvaluationSeriesData is never mutated by builder
operations — Get on it answers the same before and after any sequence of Set
and SetFromMap calls on a builder created from it — and the
EvaluationSeriesData returned by Build is likewise unaffected by later Set
calls on the builder, because NewEvaluationSeriesBuilder and Build both copy
the underlying map into a fresh allocation. -/
theorem builder_copy_isolation :
    ∀ (α : Type) (h : HookHeap α) (dref : Nat)
      (ops ops2 : List (BuilderOp α)) (k k2 : String)
      (h1 : HookHeap α) (bref : Nat) (h2 h3 : HookHeap α) (built : Nat)
      (h4 : HookHeap α),
    dref < h.maps.length →
    NewEvaluationSeriesBuilder h dref = (h1, bref) →
    applyOps h1 bref ops = h2 →
    Build h2 bref = (h3, built) →
    applyOps h3 bref ops2 = h4 →
    dataGet h4 dref k = dataGet h dref k ∧
    dataGet h4 built k2 = dataGet h3 built k2 := by
  intro α h dref ops ops2 k k2 h1 bref h2 h3 built h4
  intro hlt hnew happ hbuild happ2
  have hh1 : h1 = ⟨h.maps ++ [heapGetMap h dref]⟩ := by
    have := congrArg Prod.fst hnew
    simpa [NewEvaluationSeriesBuilder] using this.symm
  have hbref : bref = h.maps.length := by
    have := congrArg Prod.snd hnew
    simpa [NewEvaluationSeriesBuilder] using this.symm
  have hh3 : h3 = ⟨h2.maps ++ [heapGetMap h2 bref]⟩ := by
    have := congrArg Prod.fst hbuild
    simpa [Build] using this.symm
  have hbuilt : built = h2.maps.length := by
    have := congrArg Prod.snd hbuild
    simpa [Build] using this.symm
  have hlen2 : h2.maps.length = h.maps.length + 1 := by
    rw [← happ, applyOps_maps_length, hh1]
    simp
  have hdne : dref ≠ bref := by omega
  have hbne : built ≠ bref := by omega
  constructor
  · have e4 : heapGetMap h4 dref = heapGetMap h3 dref := by
      rw [← happ2, heapGetMap_applyOps_ne _ _ _ _ hdne]
    have e3 : heapGetMap h3 dref = heapGetMap h2 dref := by
      rw [hh3]
      have : dref < h2.maps.length := by omega
      exact (heapGetMap_alloc_lt h2.maps _ dref this).trans rfl
    have e2 : heapGetMap h2 dref = heapGetMap h1 dref := by
      rw [← happ, heapGetMap_applyOps_ne _ _ _ _ hdne]
    have e1 : heapGetMap h1 dref = heapGetMap h dref := by
      rw [hh1]
      exact (heapGetMap_alloc_lt h.maps _ dref hlt).trans rfl
    simp [dataGet, e4, e3, e2, e1]
  · have e4 : heapGetMap h4 built = heapGetMap h3 built := by
      rw [← happ2, heapGetMap_applyOps_ne _ _ _ _ hbne]
    simp [dataGet, e4]

/-- Witness for builder_copy_isolation: a one-entry map, a builder Set of
"a" to 2, Build, then a later Set of "a" to 3; the original still reads 1 and
the built snapshot still reads 2. -/
theorem builder_copy_isolation_witness :
    dataGet (⟨[[("a", 1)], [("a", 3)], [("a", 2)]]⟩ : HookHeap Nat) 0 "a" =
      dataGet (⟨[[("a", 1)]]⟩ : HookHeap Nat) 0 "a" ∧
    dataGet (⟨[[("a", 1)], [("a", 3)], [("a", 2)]]⟩ : HookHeap Nat) 2 "a" =
      dataGet (⟨[[("a", 1)], [("a", 2)], [("a", 2)]]⟩ : HookHeap Nat) 2 "a" :=
  builder_copy_isolation Nat ⟨[[("a", 1)]]⟩ 0 [BuilderOp.set "a" 2]
    [BuilderOp.set "a" 3] "a" "a"
    ⟨[[("a", 1)], [("a", 1)]]⟩ 1
    ⟨[[("a", 1)], [("a", 2)]]⟩
    ⟨[[("a", 1)], [("a", 2)], [("a", 2)]]⟩ 2
    ⟨[[("a", 1)], [("a", 3)], [("a", 2)]]⟩
    (by decide) rfl rfl rfl rfl
